import Mathlib

/-
Verification of the reddit_miner stock-sentiment pipeline.

Shallow embedding of the repository's core modules:
  * src/reddit_miner/ticker.py    — symbol normalization (normalize_ticker)
  * src/reddit_miner/analyzer.py  — per-comment sentiment merge (analyze_comment)
  * src/reddit_miner/db.py        — SQLite persistence layer (upserts, candidate query)
  * src/reddit_miner/pipeline.py  — error classifier, pacer, analyze scheduler loop

Python strings are modelled as Lean `String`; `str.strip`, `str.upper` and
`str.lower` are modelled over their ASCII behaviour (every character class the
code keeps is ASCII, so this covers all characters the functions can ever let
through).  Machine integers in the source are Python arbitrary-precision ints,
modelled as `Nat` or `Int` directly.
-/

namespace RedditMiner

/-! ## ticker.py — normalize_ticker -/

/-- ASCII whitespace recognised by the model of Python `str.strip`. -/
def isPyWhitespace (c : Char) : Bool :=
  c = ' ' || c = '\t' || c = '\n' || c = '\r' || c = '\x0b' || c = '\x0c'

/-- Model of Python `str.strip()` on the character list. -/
def pyStripChars (l : List Char) : List Char :=
  ((l.dropWhile isPyWhitespace).reverse.dropWhile isPyWhitespace).reverse

/-- Model of Python `str.strip()`. -/
def pyStrip (s : String) : String := ⟨pyStripChars s.data⟩

/-- ASCII model of Python `str.upper` on one character (codepoints 97–122 map down by 32). -/
def pyUpperChar (c : Char) : Char :=
  if 97 ≤ c.toNat ∧ c.toNat ≤ 122 then Char.ofNat (c.toNat - 32) else c

/-- ASCII model of Python `str.lower` on one character. -/
def pyLowerChar (c : Char) : Char :=
  if 65 ≤ c.toNat ∧ c.toNat ≤ 90 then Char.ofNat (c.toNat + 32) else c

/-- Model of Python `str.lower()`. -/
def pyLower (s : String) : String := ⟨s.data.map pyLowerChar⟩

/-- Character class A–Z (codepoints 65–90). -/
def isUpperAZ (c : Char) : Bool := decide (65 ≤ c.toNat ∧ c.toNat ≤ 90)

/-- Character class 0–9 (codepoints 48–57). -/
def isDigit09 (c : Char) : Bool := decide (48 ≤ c.toNat ∧ c.toNat ≤ 57)

/-- Character class kept by the removal regex of ticker.py line 99: the
characters A–Z, 0–9, '.', '-' and '/'; everything else is deleted. -/
def allowedTickerChar (c : Char) : Bool :=
  isUpperAZ c || isDigit09 c || c = '.' || c = '-' || c = '/'

/-- Characters that can appear in a normalized ticker: A–Z, 0–9, '.' and '-'. -/
def normalOutputChar (c : Char) : Bool :=
  isUpperAZ c || isDigit09 c || c = '.' || c = '-'

/-- Model of the exchange-tag removal regex of ticker.py line 97 (one or more
uppercase letters at the start, followed by a colon, removed): the pattern
matches exactly when the character following the maximal leading run of
uppercase letters is a colon and the run is nonempty; the match (run plus
colon) is removed. -/
def dropExchangeTag (l : List Char) : List Char :=
  match l.dropWhile isUpperAZ with
  | c :: tail => if c = ':' && !(l.takeWhile isUpperAZ).isEmpty then tail else l
  | [] => l

/-- Model of `sym.startswith("$")` followed by `sym = sym[1:]`. -/
def stripDollar (l : List Char) : List Char :=
  match l with
  | c :: rest => if c = '$' then rest else c :: rest
  | [] => []

/-- Replacement `sym.replace("/", ".")` on one character. -/
def slashToDot (c : Char) : Char := if c = '/' then '.' else c

/-- Replacement `sym.replace("-", ".")` on one character. -/
def dashToDot (c : Char) : Char := if c = '-' then '.' else c

/-- Model of the share-class full match of ticker.py line 102: the whole string
is 1–6 uppercase letters, a hyphen, then 1–3 characters from A–Z or 0–9.  The
maximal uppercase prefix is exactly the first group because the hyphen that
follows it is not an uppercase letter. -/
def isShareClass (l : List Char) : Bool :=
  let a := l.takeWhile isUpperAZ
  match l.dropWhile isUpperAZ with
  | c :: b =>
      c = '-' && decide (1 ≤ a.length) && decide (a.length ≤ 6) &&
      decide (1 ≤ b.length) && decide (b.length ≤ 3) &&
      b.all (fun d => isUpperAZ d || isDigit09 d)
  | [] => false

/-- Steps of ticker.py lines 94–99 after the emptiness test: drop a leading
'$', drop an exchange tag, remove disallowed characters, replace '/' by '.'. -/
def preShare (l : List Char) : List Char :=
  ((dropExchangeTag (stripDollar l)).filter allowedTickerChar).map slashToDot

/-- Steps of ticker.py lines 94–105 after the emptiness test, ending in the
conditional hyphen-to-dot replacement guarded by the share-class match. -/
def normCore (l : List Char) : List Char :=
  if isShareClass (preShare l) then (preShare l).map dashToDot else preShare l

/-- Embedding of `ticker.normalize_ticker` (ticker.py lines 88–105) on the
character list: strip and uppercase, return empty on empty, then `normCore`. -/
def normTickerChars (s : String) : List Char :=
  if ((pyStripChars s.data).map pyUpperChar).isEmpty then []
  else normCore ((pyStripChars s.data).map pyUpperChar)

/-- Embedding of `ticker.normalize_ticker` as a `String → String` function. -/
def normalize_ticker (s : String) : String := ⟨normTickerChars s⟩

/-! ### Helper lemmas for normalization -/

theorem map_eq_self_of {f : Char → Char} :
    ∀ l : List Char, (∀ a ∈ l, f a = a) → l.map f = l
  | [], _ => rfl
  | a :: l, h => by
      simp only [List.map_cons, h a (List.mem_cons_self a l),
        map_eq_self_of l (fun b hb => h b (List.mem_cons_of_mem a hb))]

theorem dropWhile_eq_self_of {p : Char → Bool} :
    ∀ l : List Char, (∀ a ∈ l, p a = false) → l.dropWhile p = l
  | [], _ => rfl
  | a :: l, h => by
      simp [List.dropWhile_cons, h a (List.mem_cons_self a l)]

theorem pyStripChars_eq_self {l : List Char}
    (h : ∀ a ∈ l, isPyWhitespace a = false) : pyStripChars l = l := by
  unfold pyStripChars
  rw [dropWhile_eq_self_of l h, dropWhile_eq_self_of l.reverse
    (fun a ha => h a (List.mem_reverse.mp ha)), List.reverse_reverse]

theorem ws_not_normal {c : Char} (h : isPyWhitespace c = true) :
    normalOutputChar c = false := by
  simp only [isPyWhitespace, Bool.or_eq_true, decide_eq_true_eq] at h
  rcases h with ((((h | h) | h) | h) | h) | h <;> subst h <;> decide

theorem normal_not_ws {c : Char} (h : normalOutputChar c = true) :
    isPyWhitespace c = false := by
  cases hw : isPyWhitespace c
  · rfl
  · rw [ws_not_normal hw] at h; exact absurd h (by simp)

theorem normal_toNat_le {c : Char} (h : normalOutputChar c = true) :
    c.toNat ≤ 90 := by
  simp only [normalOutputChar, isUpperAZ, isDigit09, Bool.or_eq_true,
    decide_eq_true_eq] at h
  rcases h with ((h | h) | h) | h
  · exact h.2
  · omega
  · subst h; decide
  · subst h; decide

theorem pyUpperChar_eq_self {c : Char} (h : normalOutputChar c = true) :
    pyUpperChar c = c := by
  have := normal_toNat_le h
  unfold pyUpperChar
  rw [if_neg]; omega

theorem normal_ne {c : Char} (h : normalOutputChar c = true) :
    c ≠ '$' ∧ c ≠ ':' ∧ c ≠ '/' := by
  refine ⟨?_, ?_, ?_⟩ <;> rintro rfl <;> revert h <;> decide

theorem dropExchangeTag_eq_self {l : List Char} (h : ∀ a ∈ l, a ≠ ':') :
    dropExchangeTag l = l := by
  unfold dropExchangeTag
  cases hd : l.dropWhile isUpperAZ with
  | nil => rfl
  | cons a tail =>
      have ha : a ∈ l := by
        have h1 : a ∈ l.dropWhile isUpperAZ := by
          rw [hd]; exact List.mem_cons_self a tail
        exact (List.dropWhile_sublist (l := l) (p := isUpperAZ)).subset h1
      simp [h a ha]

theorem allowed_of_normal {c : Char} (h : normalOutputChar c = true) :
    allowedTickerChar c = true := by
  simp only [normalOutputChar, Bool.or_eq_true] at h
  simp only [allowedTickerChar, Bool.or_eq_true]
  tauto

theorem normal_of_allowed_slash {c : Char} (h : allowedTickerChar c = true) :
    normalOutputChar (slashToDot c) = true := by
  by_cases hc : c = '/'
  · subst hc; decide
  · simp only [slashToDot, if_neg hc]
    simp only [allowedTickerChar, Bool.or_eq_true, decide_eq_true_eq] at h
    simp only [normalOutputChar, Bool.or_eq_true, decide_eq_true_eq]
    tauto

theorem normal_dashToDot {c : Char} (h : normalOutputChar c = true) :
    normalOutputChar (dashToDot c) = true := by
  by_cases hc : c = '-'
  · subst hc; decide
  · simp only [dashToDot, if_neg hc]; exact h

theorem no_dash_dashToDot {l : List Char} : ∀ a ∈ l.map dashToDot, a ≠ '-' := by
  intro a ha
  rcases List.mem_map.mp ha with ⟨b, _, rfl⟩
  by_cases hb : b = '-'
  · subst hb; decide
  · simp only [dashToDot, if_neg hb]; exact hb

theorem isShareClass_eq_false {l : List Char} (h : ∀ a ∈ l, a ≠ '-') :
    isShareClass l = false := by
  unfold isShareClass
  cases hd : l.dropWhile isUpperAZ with
  | nil => rfl
  | cons a tail =>
      have ha : a ∈ l := by
        have h1 : a ∈ l.dropWhile isUpperAZ := by
          rw [hd]; exact List.mem_cons_self a tail
        exact (List.dropWhile_sublist (l := l) (p := isUpperAZ)).subset h1
      simp [h a ha]

theorem preShare_normal (l : List Char) :
    ∀ a ∈ preShare l, normalOutputChar a = true := by
  intro a ha
  rcases List.mem_map.mp ha with ⟨b, hb, rfl⟩
  exact normal_of_allowed_slash (List.of_mem_filter hb)

theorem normCore_normal (l : List Char) :
    ∀ a ∈ normCore l, normalOutputChar a = true := by
  intro a ha
  unfold normCore at ha
  by_cases hs : isShareClass (preShare l)
  · rw [if_pos hs] at ha
    rcases List.mem_map.mp ha with ⟨b, hb, rfl⟩
    exact normal_dashToDot (preShare_normal l b hb)
  · rw [if_neg hs] at ha
    exact preShare_normal l a ha

theorem normTickerChars_normal (s : String) :
    ∀ a ∈ normTickerChars s, normalOutputChar a = true := by
  intro a ha
  unfold normTickerChars at ha
  by_cases he : ((pyStripChars s.data).map pyUpperChar).isEmpty
  · simp [he] at ha
  · rw [if_neg he] at ha
    exact normCore_normal _ a ha

theorem isShareClass_normCore (l : List Char) :
    isShareClass (normCore l) = false := by
  unfold normCore
  by_cases hs : isShareClass (preShare l)
  · rw [if_pos hs]
    exact isShareClass_eq_false no_dash_dashToDot
  · rw [if_neg hs]
    simpa using hs

theorem isShareClass_normTickerChars (s : String) :
    isShareClass (normTickerChars s) = false := by
  unfold normTickerChars
  by_cases he : ((pyStripChars s.data).map pyUpperChar).isEmpty
  · rw [if_pos he]; rfl
  · rw [if_neg he]; exact isShareClass_normCore _

theorem normCore_fixed {l : List Char}
    (hnorm : ∀ a ∈ l, normalOutputChar a = true)
    (hsc : isShareClass l = false) : normCore l = l := by
  have hpre : preShare l = l := by
    have h1 : stripDollar l = l := by
      cases l with
      | nil => rfl
      | cons c rest =>
          have hc : c ≠ '$' :=
            (normal_ne (hnorm c (List.mem_cons_self c rest))).1
          simp [stripDollar, hc]
    have h2 : dropExchangeTag l = l :=
      dropExchangeTag_eq_self (fun a ha => (normal_ne (hnorm a ha)).2.1)
    have h3 : l.filter allowedTickerChar = l :=
      List.filter_eq_self.mpr (fun a ha => allowed_of_normal (hnorm a ha))
    have h4 : l.map slashToDot = l :=
      map_eq_self_of l (fun a ha => by
        simp only [slashToDot, if_neg (normal_ne (hnorm a ha)).2.2])
    unfold preShare
    rw [h1, h2, h3, h4]
  unfold normCore
  rw [hpre, hsc]
  simp

/-! ### C10 — normalization output alphabet -/

/-- C10: for every input string, every character of the normalized symbol lies
in the set A–Z, 0–9, '.', '-'; in particular the output never contains '/',
'$', ':', a lowercase letter, or whitespace. -/
theorem C10_normalize_output_charset :
    ∀ s : String, (normalize_ticker s).data.all
      (fun c => normalOutputChar c && !(c = '/') && !(c = '$') && !(c = ':')
        && !(decide (97 ≤ c.toNat ∧ c.toNat ≤ 122)) && !isPyWhitespace c) = true := by
  intro s
  rw [List.all_eq_true]
  intro c hc
  have hn : normalOutputChar c = true := normTickerChars_normal s c hc
  have hne := normal_ne hn
  have hle := normal_toNat_le hn
  have hws := normal_not_ws hn
  simp only [Bool.and_eq_true, Bool.not_eq_true', decide_eq_false_iff_not]
  exact ⟨⟨⟨⟨⟨hn, hne.2.2⟩, hne.1⟩, hne.2.1⟩, by omega⟩, hws⟩

/-! ### C9 — normalization is idempotent -/

theorem normTicker_fixed {t : List Char}
    (hnorm : ∀ a ∈ t, normalOutputChar a = true)
    (hsc : isShareClass t = false) :
    normTickerChars ⟨t⟩ = t := by
  unfold normTickerChars
  rw [show (String.mk t).data = t from rfl]
  rw [pyStripChars_eq_self (fun a ha => normal_not_ws (hnorm a ha))]
  rw [map_eq_self_of _ (fun a ha => pyUpperChar_eq_self (hnorm a ha))]
  by_cases he : t.isEmpty
  · rw [if_pos he]
    exact (List.isEmpty_iff.mp he).symm
  · rw [if_neg he]
    exact normCore_fixed hnorm hsc

/-- C9: symbol normalization is idempotent — normalizing an already-normalized
symbol returns it unchanged. -/
theorem C9_normalize_idempotent :
    ∀ s : String, normalize_ticker (normalize_ticker s) = normalize_ticker s := by
  intro s
  show (⟨normTickerChars ⟨normTickerChars s⟩⟩ : String) = ⟨normTickerChars s⟩
  rw [normTicker_fixed (normTickerChars_normal s) (isShareClass_normTickerChars s)]

/-! ## analyzer.py — sentiment merge of analyze_comment -/

/-- Association-list model of the Python dict `out` of analyzer.py lines 56–66:
updating an existing key keeps its position, a new key is appended at the end,
matching insertion-ordered Python dict semantics. -/
def dinsert (k v : String) : List (String × String) → List (String × String)
  | [] => [(k, v)]
  | (k', v') :: rest =>
      if k' = k then (k, v) :: rest else (k', v') :: dinsert k v rest

/-- Lookup in the association-list model of a Python dict. -/
def dlookup (k : String) : List (String × String) → Option String
  | [] => none
  | (k', v') :: rest => if k' = k then some v' else dlookup k rest

/-- One iteration of the loop of analyzer.py lines 57–66 over one raw mention
(ticker string, sentiment): normalize the ticker, discard it if normalization
is empty, set the sentiment to "neutral" when it conflicts with the stored one. -/
def mergeStep (out : List (String × String)) (m : String × String) :
    List (String × String) :=
  let t := normalize_ticker m.1
  if t = "" then out
  else
    match dlookup t out with
    | some cur => if cur ≠ m.2 then dinsert t "neutral" out else dinsert t m.2 out
    | none => dinsert t m.2 out

/-- Embedding of the merge loop of `analyzer.analyze_comment` (analyzer.py
lines 56–68): the deduplicated symbol-to-sentiment mapping built from the raw
mention list returned by the extraction call. -/
def analyze_merge (ms : List (String × String)) : List (String × String) :=
  ms.foldl mergeStep []

/-- Per-symbol result of folding the conflict rule of analyzer.py lines 63–66
over the sentiments of one symbol's occurrences. -/
def mergeVal (cur : Option String) : List String → Option String
  | [] => cur
  | s :: rest =>
      match cur with
      | none => mergeVal (some s) rest
      | some c => mergeVal (some (if c = s then s else "neutral")) rest

theorem mergeVal_nil (cur : Option String) : mergeVal cur [] = cur := rfl

theorem mergeVal_none_cons (s : String) (rest : List String) :
    mergeVal none (s :: rest) = mergeVal (some s) rest := rfl

theorem mergeVal_some_cons (c s : String) (rest : List String) :
    mergeVal (some c) (s :: rest) =
      mergeVal (some (if c = s then s else "neutral")) rest := rfl

/-- Sentiments of the occurrences of normalized symbol `t` in a raw mention list. -/
def normOcc (ms : List (String × String)) (t : String) : List String :=
  (ms.filter (fun m => normalize_ticker m.1 = t)).map Prod.snd

/-! ### Helper lemmas for the merge -/

theorem dlookup_dinsert_self (k v : String) :
    ∀ l, dlookup k (dinsert k v l) = some v
  | [] => by simp [dinsert, dlookup]
  | (k', v') :: rest => by
      by_cases h : k' = k
      · simp [dinsert, dlookup, h]
      · simp [dinsert, dlookup, h, dlookup_dinsert_self k v rest]

theorem dlookup_dinsert_ne {k' k : String} (h : k' ≠ k) (v : String) :
    ∀ l, dlookup k' (dinsert k v l) = dlookup k' l
  | [] => by
      have h2 : ¬k = k' := fun hx => h hx.symm
      simp [dinsert, dlookup, h2]
  | (a, b) :: rest => by
      by_cases hak : a = k
      · subst hak
        have h2 : ¬a = k' := fun hx => h hx.symm
        simp [dinsert, dlookup, h2]
      · by_cases hak' : a = k'
        · subst hak'
          simp [dinsert, dlookup, hak, h]
        · simp [dinsert, dlookup, hak, hak', dlookup_dinsert_ne h v rest]

theorem mem_keys_dinsert {x k v : String} :
    ∀ l, x ∈ (dinsert k v l).map Prod.fst ↔ x = k ∨ x ∈ l.map Prod.fst
  | [] => by simp [dinsert]
  | (a, b) :: rest => by
      by_cases ha : a = k
      · subst ha
        simp [dinsert]
      · simp [dinsert, ha, mem_keys_dinsert (l := rest)]
        tauto

theorem nodup_keys_dinsert {k v : String} :
    ∀ l, (l.map Prod.fst).Nodup → ((dinsert k v l).map Prod.fst).Nodup
  | [] => fun _ => by simp [dinsert]
  | (a, b) :: rest => fun h => by
      simp only [List.map_cons, List.nodup_cons] at h
      by_cases ha : a = k
      · subst ha
        simpa [dinsert] using h
      · simp only [dinsert, if_neg ha, List.map_cons, List.nodup_cons]
        refine ⟨?_, nodup_keys_dinsert rest h.2⟩
        rw [mem_keys_dinsert]
        rintro (rfl | hmem)
        · exact ha rfl
        · exact h.1 hmem

theorem nodup_keys_mergeStep {acc : List (String × String)} (m : String × String)
    (h : (acc.map Prod.fst).Nodup) : ((mergeStep acc m).map Prod.fst).Nodup := by
  unfold mergeStep
  by_cases ht : normalize_ticker m.1 = ""
  · simpa [ht] using h
  · simp only [if_neg ht]
    cases dlookup (normalize_ticker m.1) acc with
    | none => exact nodup_keys_dinsert acc h
    | some cur =>
        by_cases hc : cur ≠ m.2 <;> simp [hc] <;> exact nodup_keys_dinsert acc h

theorem nodup_keys_foldl_mergeStep :
    ∀ (ms : List (String × String)) (acc : List (String × String)),
      (acc.map Prod.fst).Nodup → ((ms.foldl mergeStep acc).map Prod.fst).Nodup
  | [], _, h => h
  | m :: ms, acc, h =>
      nodup_keys_foldl_mergeStep ms (mergeStep acc m) (nodup_keys_mergeStep m h)

theorem dlookup_empty_foldl_mergeStep :
    ∀ (ms : List (String × String)) (acc : List (String × String)),
      dlookup "" acc = none → dlookup "" (ms.foldl mergeStep acc) = none
  | [], _, h => h
  | m :: ms, acc, h => by
      refine dlookup_empty_foldl_mergeStep ms (mergeStep acc m) ?_
      unfold mergeStep
      by_cases ht : normalize_ticker m.1 = ""
      · simpa [ht] using h
      · simp only [if_neg ht]
        have hne : "" ≠ normalize_ticker m.1 := fun hx => ht hx.symm
        cases dlookup (normalize_ticker m.1) acc with
        | none => rw [dlookup_dinsert_ne hne]; exact h
        | some cur =>
            dsimp only
            by_cases hc : cur ≠ m.2
            · rw [if_pos hc, dlookup_dinsert_ne hne]; exact h
            · rw [if_neg hc, dlookup_dinsert_ne hne]; exact h

theorem foldl_mergeStep_lookup {t : String} (ht : t ≠ "") :
    ∀ (ms : List (String × String)) (acc : List (String × String)),
      dlookup t (ms.foldl mergeStep acc) = mergeVal (dlookup t acc) (normOcc ms t)
  | [], acc => by simp [normOcc, mergeVal]
  | m :: ms, acc => by
      rw [List.foldl_cons, foldl_mergeStep_lookup ht ms (mergeStep acc m)]
      by_cases hm : normalize_ticker m.1 = t
      · have hm' : ¬ normalize_ticker m.1 = "" := by rw [hm]; exact ht
        have hocc : normOcc (m :: ms) t = m.2 :: normOcc ms t := by
          simp [normOcc, hm]
        rw [hocc]
        unfold mergeStep
        rw [if_neg hm', hm]
        cases hl : dlookup t acc with
        | none => rw [dlookup_dinsert_self, mergeVal_none_cons]
        | some cur =>
            dsimp only
            by_cases hc : cur = m.2
            · rw [if_neg (show ¬ cur ≠ m.2 from fun hx => hx hc)]
              rw [dlookup_dinsert_self, mergeVal_some_cons, if_pos hc]
            · rw [if_pos (show cur ≠ m.2 from hc)]
              rw [dlookup_dinsert_self, mergeVal_some_cons, if_neg hc]
      · have hocc : normOcc (m :: ms) t = normOcc ms t := by
          simp [normOcc, hm]
        rw [hocc]
        have hstep : dlookup t (mergeStep acc m) = dlookup t acc := by
          unfold mergeStep
          by_cases h0 : normalize_ticker m.1 = ""
          · simp [h0]
          · simp only [if_neg h0]
            have hne : t ≠ normalize_ticker m.1 := fun hx => hm hx.symm
            cases dlookup (normalize_ticker m.1) acc with
            | none => exact dlookup_dinsert_ne hne _ _
            | some cur =>
                dsimp only
                by_cases hc : cur ≠ m.2
                · rw [if_pos hc]; exact dlookup_dinsert_ne hne _ _
                · rw [if_neg hc]; exact dlookup_dinsert_ne hne _ _
        rw [hstep]

theorem mergeVal_some :
    ∀ (rest : List String) (c : String),
      mergeVal (some c) rest =
        some (if rest.all (fun x => decide (x = c)) then c else "neutral")
  | [], c => by simp [mergeVal_nil]
  | s :: rest, c => by
      rw [mergeVal_some_cons]
      by_cases hc : c = s
      · subst hc
        rw [if_pos rfl, mergeVal_some rest c]
        simp
      · rw [if_neg hc, mergeVal_some rest "neutral", ite_self]
        have hs : decide (s = c) = false := decide_eq_false (fun hx => hc hx.symm)
        simp [List.all_cons, hs]

/-! ### C7 — the sentiment merge -/

/-- C7: for every raw mention list, the merged mapping is deduplicated (no
symbol appears twice); a symbol normalizing to the empty string is discarded;
for a nonempty symbol, the merge result is the common sentiment when all of
that symbol's occurrences agree, "neutral" when they conflict, and absent when
the symbol does not occur.  Duplicate symbols in the input are handled, not
assumed away. -/
theorem C7_sentiment_merge (ms : List (String × String)) (t : String) :
    ((analyze_merge ms).map Prod.fst).Nodup ∧
    dlookup t (analyze_merge ms) =
      (if t = "" then none
       else match normOcc ms t with
            | [] => none
            | h :: rest =>
                some (if rest.all (fun x => decide (x = h)) then h
                      else "neutral")) := by
  constructor
  · exact nodup_keys_foldl_mergeStep ms [] (by simp)
  · by_cases ht : t = ""
    · rw [if_pos ht, ht]
      exact dlookup_empty_foldl_mergeStep ms [] rfl
    · rw [if_neg ht]
      unfold analyze_merge
      rw [foldl_mergeStep_lookup ht ms []]
      cases hocc : normOcc ms t with
      | nil => simp [dlookup, mergeVal_nil]
      | cons h rest =>
          rw [show dlookup t [] = none from rfl, mergeVal_none_cons, mergeVal_some]

/-! ## db.py — persisted state and its operations

The three SQLite tables of db.py `init_db` (lines 15–64) are modelled as lists
of rows.  Columns of `comments` that no embedded operation reads
(submission id and title, author, score, scraped_at) are omitted.  SQLite
`INSERT OR REPLACE` under a PRIMARY KEY is modelled as: remove any row with
the same key, then append the new row. -/

structure CommentRow where
  comment_id : String
  subreddit : String
  created_utc : Int
  body : String
deriving DecidableEq, Repr

structure AnalysisRow where
  analysis_tag : String
  comment_id : String
  model : String
  analyzed_at : Nat
  status : String
  error : Option String
deriving DecidableEq, Repr

structure MentionRow where
  analysis_tag : String
  comment_id : String
  ticker : String
  sentiment : String
  model : String
  analyzed_at : Nat
deriving DecidableEq, Repr

structure DB where
  comments : List CommentRow
  comment_analysis : List AnalysisRow
  mentions : List MentionRow
deriving DecidableEq, Repr

/-- PRIMARY KEY (analysis_tag, comment_id) of table comment_analysis. -/
def analysisKeyMatch (tag cid : String) (r : AnalysisRow) : Bool :=
  decide (r.analysis_tag = tag ∧ r.comment_id = cid)

/-- PRIMARY KEY (analysis_tag, comment_id, ticker) of table mentions. -/
def mentionKeyMatch (tag cid t : String) (r : MentionRow) : Bool :=
  decide (r.analysis_tag = tag ∧ r.comment_id = cid ∧ r.ticker = t)

/-- Embedding of `db.mark_analyzed_ok` (db.py lines 113–118): INSERT OR
REPLACE of an "ok" row with NULL error.  The wall-clock stamp `int(time.time())`
is passed in as `now`. -/
def mark_analyzed_ok (db : DB) (tag cid model : String) (now : Nat) : DB :=
  { db with comment_analysis :=
      db.comment_analysis.filter (fun r => !analysisKeyMatch tag cid r) ++
        [⟨tag, cid, model, now, "ok", none⟩] }

/-- Embedding of `db.mark_analyzed_skipped` (db.py lines 120–125). -/
def mark_analyzed_skipped (db : DB) (tag cid model : String) (now : Nat) : DB :=
  { db with comment_analysis :=
      db.comment_analysis.filter (fun r => !analysisKeyMatch tag cid r) ++
        [⟨tag, cid, model, now, "skipped", none⟩] }

/-- Embedding of `db.mark_analyzed_error` (db.py lines 127–132): the error
detail is truncated to 2000 characters (`error[:2000]`). -/
def mark_analyzed_error (db : DB) (tag cid model : String) (now : Nat)
    (error : String) : DB :=
  { db with comment_analysis :=
      db.comment_analysis.filter (fun r => !analysisKeyMatch tag cid r) ++
        [⟨tag, cid, model, now, "error", some (error.take 2000)⟩] }

/-- One INSERT OR REPLACE into table mentions. -/
def upsertMention (db : DB) (tag cid t s model : String) (now : Nat) : DB :=
  { db with mentions :=
      db.mentions.filter (fun r => !mentionKeyMatch tag cid t r) ++
        [⟨tag, cid, t, s, model, now⟩] }

/-- Embedding of `db.save_mentions` (db.py lines 134–146): `executemany`
performs the INSERT OR REPLACE statements sequentially in list order. -/
def save_mentions (db : DB) (tag cid model : String) (now : Nat)
    (rows : List (String × String)) : DB :=
  rows.foldl (fun d p => upsertMention d tag cid p.1 p.2 model now) db

/-- The comment_analysis row joined by `fetch_candidates`' LEFT JOIN for one
comment: the PRIMARY KEY (analysis_tag, comment_id) guarantees at most one
matching row, so `find?` is the faithful embedding of the join. -/
def statusRow (db : DB) (tag cid : String) : Option AnalysisRow :=
  db.comment_analysis.find? (analysisKeyMatch tag cid)

/-- WHERE predicate of `db.fetch_candidates` (db.py lines 164–187) on one
comment: no status row, or status 'error' in retry mode, or status 'skipped'
when `include_skipped` is set. -/
def candPred (db : DB) (tag : String) (retry includeSkipped : Bool)
    (c : CommentRow) : Bool :=
  match statusRow db tag c.comment_id with
  | none => true
  | some a => (retry && decide (a.status = "error")) ||
              (includeSkipped && decide (a.status = "skipped"))

/-- Subreddit filter of `db.fetch_candidates` (db.py lines 160–162): a falsy
(absent or empty) tuple applies no filter. -/
def subredditOk (subs : Option (List String)) (c : CommentRow) : Bool :=
  match subs with
  | none => true
  | some l => if l.isEmpty then true else decide (c.subreddit ∈ l)

/-- Output ordering of `fetch_candidates`: `ORDER BY c.created_utc DESC`. -/
def createdGe (a b : CommentRow) : Prop := b.created_utc ≤ a.created_utc

instance : DecidableRel createdGe := fun a b =>
  inferInstanceAs (Decidable (b.created_utc ≤ a.created_utc))

instance : IsTotal CommentRow createdGe :=
  ⟨fun a b => le_total b.created_utc a.created_utc⟩

instance : IsTrans CommentRow createdGe :=
  ⟨fun _ _ _ h1 h2 => le_trans h2 h1⟩

/-- Rows satisfying the WHERE clause of `fetch_candidates`, ordered by
created_utc descending.  SQL leaves the relative order of equal timestamps
unspecified; insertion sort fixes one order consistent with the comparator. -/
def candidateRows (db : DB) (tag : String) (retry includeSkipped : Bool)
    (subs : Option (List String)) : List CommentRow :=
  List.insertionSort createdGe
    (db.comments.filter (fun c => candPred db tag retry includeSkipped c &&
      subredditOk subs c))

/-- Embedding of `db.fetch_candidates` (db.py lines 148–191): WHERE filter,
ORDER BY created_utc DESC, LIMIT, projected to (comment_id, body). -/
def fetch_candidates (db : DB) (tag : String) (lim : Nat) (retry : Bool)
    (subs : Option (List String)) (includeSkipped : Bool) :
    List (String × String) :=
  ((candidateRows db tag retry includeSkipped subs).take lim).map
    (fun c => (c.comment_id, c.body))

/-- Model of `dict.fromkeys(tickers)`: deduplicate keeping first-occurrence
order. -/
def pyDedup : List String → List String
  | [] => []
  | x :: xs => x :: pyDedup (xs.filter (fun y => decide (y ≠ x)))
termination_by l => l.length
decreasing_by
  simp only [List.length_cons]
  exact Nat.lt_succ_of_le (List.length_filter_le _ _)

/-- Chunking of db.py lines 350–351: `ticker_list[i:i + 900]` for `i` stepping
by 900. -/
def chunks900 : List String → List (List String)
  | [] => []
  | x :: xs => (x :: xs).take 900 :: chunks900 ((x :: xs).drop 900)
termination_by l => l.length
decreasing_by
  simp only [List.drop, List.length_cons, List.length_drop]
  omega

/-- One DELETE statement of db.py lines 353–356 with its rowcount. -/
def delete_mentions_chunk (db : DB) (tag : String) (chunk : List String) :
    DB × Nat :=
  let keep := db.mentions.filter
    (fun r => !decide (r.analysis_tag = tag ∧ r.ticker ∈ chunk))
  let removed := db.mentions.filter
    (fun r => decide (r.analysis_tag = tag ∧ r.ticker ∈ chunk))
  ({ db with mentions := keep }, removed.length)

/-- Embedding of `db.delete_mentions_for_tickers` (db.py lines 342–360):
dedup and drop falsy (empty) tickers, then delete chunk by chunk, summing the
rowcounts (adding a zero rowcount is the same as skipping it). -/
def delete_mentions_for_tickers (db : DB) (tag : String)
    (tickers : List String) : DB × Nat :=
  if ((pyDedup tickers).filter (fun t => decide (t ≠ ""))).isEmpty then (db, 0)
  else
    (chunks900 ((pyDedup tickers).filter (fun t => decide (t ≠ "")))).foldl
      (fun acc chunk =>
        (( delete_mentions_chunk acc.1 tag chunk).1,
         acc.2 + (delete_mentions_chunk acc.1 tag chunk).2))
      (db, 0)

/-! ### Helper lemmas for the upserts -/

theorem filter_not_self_idem {α} (p : α → Bool) (l : List α) :
    (l.filter p).filter p = l.filter p := by
  rw [List.filter_filter]
  exact List.filter_congr (fun a _ => by cases p a <;> rfl)

theorem filter_key_upsert {α} (K : α → Bool) (l : List α) (x : α)
    (hx : K x = true) : (l.filter (fun r => !K r) ++ [x]).filter K = [x] := by
  rw [List.filter_append, List.filter_filter]
  have h1 : l.filter (fun a => K a && !K a) = [] :=
    List.filter_eq_nil_iff.mpr (fun a _ => by cases K a <;> simp)
  rw [h1]
  simp [hx]

theorem filter_not_key_upsert {α} (K : α → Bool) (l : List α) (x : α)
    (hx : K x = true) :
    (l.filter (fun r => !K r) ++ [x]).filter (fun r => !K r) =
      l.filter (fun r => !K r) := by
  rw [List.filter_append, filter_not_self_idem]
  simp [hx]

/-- Keys-of-a-batch predicate: the row matches (tag, comment_id) and its ticker
is one of the given tickers. -/
def mentionBulkKey (tag cid : String) (keys : List String) (r : MentionRow) : Bool :=
  decide (r.analysis_tag = tag ∧ r.comment_id = cid ∧ r.ticker ∈ keys)

theorem bulk_cons_eq (tag cid t : String) (keys : List String) (r : MentionRow) :
    (!mentionBulkKey tag cid keys r && !mentionKeyMatch tag cid t r) =
      !mentionBulkKey tag cid (t :: keys) r := by
  have h : (mentionBulkKey tag cid keys r || mentionKeyMatch tag cid t r) =
      mentionBulkKey tag cid (t :: keys) r := by
    by_cases h1 : r.analysis_tag = tag
    · by_cases h2 : r.comment_id = cid
      · by_cases h3 : r.ticker = t
        · simp [mentionBulkKey, mentionKeyMatch, h1, h2, h3]
        · by_cases h4 : r.ticker ∈ keys <;>
            simp [mentionBulkKey, mentionKeyMatch, h1, h2, h3, h4]
      · simp [mentionBulkKey, mentionKeyMatch, h2]
    · simp [mentionBulkKey, mentionKeyMatch, h1]
  rw [← h, Bool.not_or]

/-- Rows appended by one `save_mentions` batch: later occurrences of the same
ticker overwrite earlier ones, so only the last occurrence of each ticker
survives, in order. -/
def mentionTail (tag cid model : String) (now : Nat) :
    List (String × String) → List MentionRow
  | [] => []
  | (t, s) :: rs =>
      (if t ∈ rs.map Prod.fst then [] else [⟨tag, cid, t, s, model, now⟩]) ++
        mentionTail tag cid model now rs

theorem mem_mentionTail {tag cid model : String} {now : Nat} :
    ∀ {rows : List (String × String)} {r : MentionRow},
      r ∈ mentionTail tag cid model now rows →
      r.analysis_tag = tag ∧ r.comment_id = cid ∧ r.ticker ∈ rows.map Prod.fst
  | [], r => by simp [mentionTail]
  | (t, s) :: rs, r => by
      intro hr
      rcases List.mem_append.mp hr with hr | hr
      · by_cases hmem : t ∈ rs.map Prod.fst
        · rw [if_pos hmem] at hr; simp at hr
        · rw [if_neg hmem] at hr
          rcases List.mem_singleton.mp hr with rfl
          exact ⟨rfl, rfl, by simp⟩
      · obtain ⟨h1, h2, h3⟩ := mem_mentionTail hr
        exact ⟨h1, h2, by simp [h3]⟩

theorem save_mentions_comments (db : DB) (tag cid model : String) (now : Nat) :
    ∀ rows, (save_mentions db tag cid model now rows).comments = db.comments ∧
      (save_mentions db tag cid model now rows).comment_analysis =
        db.comment_analysis := by
  suffices h : ∀ (rows : List (String × String)) (d : DB),
      (save_mentions d tag cid model now rows).comments = d.comments ∧
      (save_mentions d tag cid model now rows).comment_analysis =
        d.comment_analysis from fun rows => h rows db
  intro rows
  induction rows with
  | nil => intro d; exact ⟨rfl, rfl⟩
  | cons p rs ih =>
      intro d
      obtain ⟨h1, h2⟩ := ih (upsertMention d tag cid p.1 p.2 model now)
      exact ⟨h1.trans rfl, h2.trans rfl⟩

theorem save_mentions_mentions (tag cid model : String) (now : Nat) :
    ∀ (rows : List (String × String)) (db : DB),
      (save_mentions db tag cid model now rows).mentions =
        db.mentions.filter
          (fun r => !mentionBulkKey tag cid (rows.map Prod.fst) r) ++
          mentionTail tag cid model now rows
  | [], db => by
      simp only [save_mentions, List.foldl_nil, mentionTail, List.append_nil]
      refine (List.filter_eq_self.mpr (fun r _ => ?_)).symm
      simp [mentionBulkKey]
  | (t, s) :: rs, db => by
      have hstep : save_mentions db tag cid model now ((t, s) :: rs) =
          save_mentions (upsertMention db tag cid t s model now) tag cid model
            now rs := rfl
      rw [hstep, save_mentions_mentions tag cid model now rs]
      have hup : (upsertMention db tag cid t s model now).mentions =
          db.mentions.filter (fun r => !mentionKeyMatch tag cid t r) ++
            [⟨tag, cid, t, s, model, now⟩] := rfl
      rw [hup, List.filter_append, List.filter_filter]
      rw [List.filter_congr
        (fun r _ => bulk_cons_eq tag cid t (rs.map Prod.fst) r)]
      have hsingle :
          [(⟨tag, cid, t, s, model, now⟩ : MentionRow)].filter
            (fun r => !mentionBulkKey tag cid (rs.map Prod.fst) r) =
          (if t ∈ rs.map Prod.fst then []
           else [(⟨tag, cid, t, s, model, now⟩ : MentionRow)]) := by
        by_cases hmem : t ∈ rs.map Prod.fst
        · rw [if_pos hmem]; simp [mentionBulkKey, hmem]
        · rw [if_neg hmem]; simp [mentionBulkKey, hmem]
      rw [hsingle]
      show _ ++ _ ++ _ = _ ++ mentionTail tag cid model now ((t, s) :: rs)
      rw [mentionTail, List.append_assoc]
      simp only [List.map_cons]

/-- Success-path writes of pipeline.py lines 317–324 for one candidate:
`save_mentions` followed by `mark_analyzed_ok`. -/
def writeCandidate (db : DB) (tag cid model : String) (now : Nat)
    (rows : List (String × String)) : DB :=
  mark_analyzed_ok (save_mentions db tag cid model now rows) tag cid model now

theorem DB.eq_of_fields {a b : DB} (h1 : a.comments = b.comments)
    (h2 : a.comment_analysis = b.comment_analysis)
    (h3 : a.mentions = b.mentions) : a = b := by
  cases a; cases b; simp_all

theorem writeCandidate_idem (db : DB) (tag cid model : String) (now : Nat)
    (rows : List (String × String)) :
    writeCandidate (writeCandidate db tag cid model now rows) tag cid model now
      rows = writeCandidate db tag cid model now rows := by
  have hK : analysisKeyMatch tag cid ⟨tag, cid, model, now, "ok", none⟩ = true := by
    simp [analysisKeyMatch]
  set d1 := writeCandidate db tag cid model now rows with hd1
  have hana1 : d1.comment_analysis =
      db.comment_analysis.filter (fun r => !analysisKeyMatch tag cid r) ++
        [⟨tag, cid, model, now, "ok", none⟩] := by
    rw [hd1]
    show (save_mentions db tag cid model now rows).comment_analysis.filter
        (fun r => !analysisKeyMatch tag cid r) ++
        [⟨tag, cid, model, now, "ok", none⟩] = _
    rw [(save_mentions_comments db tag cid model now rows).2]
  have hmen1 : d1.mentions =
      db.mentions.filter
        (fun r => !mentionBulkKey tag cid (rows.map Prod.fst) r) ++
        mentionTail tag cid model now rows := by
    rw [hd1]
    show (save_mentions db tag cid model now rows).mentions = _
    exact save_mentions_mentions tag cid model now rows db
  apply DB.eq_of_fields
  · show (save_mentions d1 tag cid model now rows).comments = d1.comments
    exact (save_mentions_comments d1 tag cid model now rows).1
  · show (save_mentions d1 tag cid model now rows).comment_analysis.filter
        (fun r => !analysisKeyMatch tag cid r) ++
        [⟨tag, cid, model, now, "ok", none⟩] = d1.comment_analysis
    rw [(save_mentions_comments d1 tag cid model now rows).2, hana1,
      filter_not_key_upsert (analysisKeyMatch tag cid) _ _ hK]
  · show (save_mentions d1 tag cid model now rows).mentions = d1.mentions
    rw [save_mentions_mentions tag cid model now rows d1, hmen1,
      List.filter_append, filter_not_self_idem]
    have hT : (mentionTail tag cid model now rows).filter
        (fun r => !mentionBulkKey tag cid (rows.map Prod.fst) r) = [] := by
      refine List.filter_eq_nil_iff.mpr (fun r hr => ?_)
      obtain ⟨h1, h2, h3⟩ := mem_mentionTail hr
      simp [mentionBulkKey, h1, h2, h3]
    rw [hT, List.append_nil]

/-! ### C6 — idempotent upserts -/

/-- C6: status and mention writes are keyed upserts.  Writing the same
(tag, record-id, symbol, sentiment) mention twice leaves exactly one row with
that key, carrying the last write; writing a second AnalysisStatus for the same
(tag, record-id) replaces the prior row rather than appending, leaving other
status rows untouched; and re-running the full success-path write sequence of
one candidate yields the same final persisted state. -/
theorem C6_upsert_semantics (db : DB) (tag cid t s model err : String)
    (now1 now2 now : Nat) (rows : List (String × String)) :
    ((save_mentions (save_mentions db tag cid model now1 [(t, s)]) tag cid model
        now2 [(t, s)]).mentions.filter (mentionKeyMatch tag cid t) =
      [⟨tag, cid, t, s, model, now2⟩]) ∧
    ((mark_analyzed_ok (mark_analyzed_error db tag cid model now1 err) tag cid
        model now2).comment_analysis.filter (analysisKeyMatch tag cid) =
      [⟨tag, cid, model, now2, "ok", none⟩]) ∧
    ((mark_analyzed_ok db tag cid model now2).comment_analysis.filter
        (fun r => !analysisKeyMatch tag cid r) =
      db.comment_analysis.filter (fun r => !analysisKeyMatch tag cid r)) ∧
    (writeCandidate (writeCandidate db tag cid model now rows) tag cid model now
        rows = writeCandidate db tag cid model now rows) := by
  refine ⟨?_, ?_, ?_, writeCandidate_idem db tag cid model now rows⟩
  · exact filter_key_upsert _ _ _ (by simp [mentionKeyMatch])
  · exact filter_key_upsert _ _ _ (by simp [analysisKeyMatch])
  · exact filter_not_key_upsert _ _ _ (by simp [analysisKeyMatch])

/-! ### Helper lemmas for the validator deletion -/

theorem pyDedup_mem : ∀ (l : List String) (x : String), x ∈ pyDedup l ↔ x ∈ l
  | [], x => by simp [pyDedup]
  | y :: ys, x => by
      rw [pyDedup]
      by_cases hxy : x = y
      · subst hxy; simp
      · simp only [List.mem_cons, hxy, false_or]
        rw [pyDedup_mem (ys.filter (fun z => decide (z ≠ y))) x]
        simp [List.mem_filter, hxy]
termination_by l _ => l.length
decreasing_by
  simp only [List.length_cons]
  exact Nat.lt_succ_of_le (List.length_filter_le _ _)

theorem chunks900_flatten : ∀ l : List String, (chunks900 l).flatten = l
  | [] => by rw [chunks900]; rfl
  | x :: xs => by
      rw [chunks900, List.flatten_cons,
        chunks900_flatten ((x :: xs).drop 900), List.take_append_drop]
termination_by l => l.length
decreasing_by
  simp only [List.length_cons, List.length_drop]
  omega

theorem chunks900_sizes : ∀ l : List String,
    (chunks900 l).all (fun c => decide (c.length ≤ 900) && !c.isEmpty) = true
  | [] => by rw [chunks900]; rfl
  | x :: xs => by
      rw [chunks900, List.all_cons, chunks900_sizes ((x :: xs).drop 900)]
      have h1 : ((x :: xs).take 900).length ≤ 900 := by
        rw [List.length_take]
        exact min_le_left _ _
      have h2 : ((x :: xs).take 900).isEmpty = false := by
        rw [show (900 : Nat) = 899 + 1 from rfl, List.take_succ_cons]
        rfl
      simp [h1, h2]
termination_by l => l.length
decreasing_by
  simp only [List.length_cons, List.length_drop]
  omega

theorem foldl_delete (tag : String) :
    ∀ (cs : List (List String)) (db : DB) (n : Nat),
      ((cs.foldl (fun acc chunk =>
          ((delete_mentions_chunk acc.1 tag chunk).1,
           acc.2 + (delete_mentions_chunk acc.1 tag chunk).2)) (db, n)).1 : DB) =
        { db with mentions := (db.mentions.filter (fun r => !decide (r.analysis_tag = tag ∧ r.ticker ∈ cs.flatten))) }
  | [], db, n => by
      simp only [List.foldl_nil, List.flatten_nil]
      have h : db.mentions.filter
          (fun r => !decide (r.analysis_tag = tag ∧ r.ticker ∈ ([] : List String))) =
          db.mentions :=
        List.filter_eq_self.mpr (fun r _ => by simp)
      exact (DB.eq_of_fields rfl rfl h.symm)
  | c :: cs, db, n => by
      rw [List.foldl_cons]
      refine (foldl_delete tag cs _ _).trans ?_
      refine DB.eq_of_fields rfl rfl ?_
      show ((db.mentions.filter
          (fun r => !decide (r.analysis_tag = tag ∧ r.ticker ∈ c))).filter
          (fun r => !decide (r.analysis_tag = tag ∧ r.ticker ∈ cs.flatten))) = _
      rw [List.filter_filter]
      refine List.filter_congr (fun r _ => ?_)
      by_cases h1 : r.analysis_tag = tag
      · by_cases h2 : r.ticker ∈ c
        · simp [List.flatten_cons, h1, h2]
        · by_cases h3 : r.ticker ∈ cs.flatten <;>
            simp [List.flatten_cons, h1, h2, h3]
      · simp [h1]

/-! ### C8 — the validator deletes only rejected mentions of the tag -/

/-- C8: the deletion step of the post-run validator removes exactly the
Mention rows of the given tag whose ticker is one of the (nonempty) rejected
tickers; it leaves comment_analysis and comments untouched, never creates
mention rows (the result is a sublist of the input), and every DELETE
statement names at most 900 tickers. -/
theorem C8_validator_deletion (db : DB) (tag : String) (tickers : List String) :
    ((delete_mentions_for_tickers db tag tickers).1.mentions =
      db.mentions.filter (fun r =>
        !decide (r.analysis_tag = tag ∧ r.ticker ∈ tickers ∧ r.ticker ≠ ""))) ∧
    ((delete_mentions_for_tickers db tag tickers).1.comment_analysis =
      db.comment_analysis) ∧
    ((delete_mentions_for_tickers db tag tickers).1.comments = db.comments) ∧
    (delete_mentions_for_tickers db tag tickers).1.mentions.Sublist
      db.mentions ∧
    ((chunks900 ((pyDedup tickers).filter (fun t => decide (t ≠ "")))).all
      (fun c => decide (c.length ≤ 900) && !c.isEmpty) = true) := by
  have hmem : ∀ x, x ∈ (pyDedup tickers).filter (fun t => decide (t ≠ "")) ↔
      (x ∈ tickers ∧ x ≠ "") := by
    intro x
    rw [List.mem_filter, pyDedup_mem]
    simp
  have hments : (delete_mentions_for_tickers db tag tickers).1.mentions =
      db.mentions.filter (fun r =>
        !decide (r.analysis_tag = tag ∧ r.ticker ∈ tickers ∧ r.ticker ≠ "")) := by
    unfold delete_mentions_for_tickers
    by_cases he : ((pyDedup tickers).filter (fun t => decide (t ≠ ""))).isEmpty
    · rw [if_pos he]
      refine (List.filter_eq_self.mpr (fun r _ => ?_)).symm
      have hnil := List.isEmpty_iff.mp he
      by_cases h2 : r.ticker ∈ tickers ∧ r.ticker ≠ ""
      · exact absurd ((hmem r.ticker).mpr h2) (by rw [hnil]; simp)
      · simp only [Bool.not_eq_true', decide_eq_false_iff_not]
        exact fun hx => h2 hx.2
    · rw [if_neg he, foldl_delete tag _ db 0]
      refine List.filter_congr (fun r _ => ?_)
      rw [chunks900_flatten]
      by_cases h1 : r.analysis_tag = tag
      · by_cases h2 : r.ticker ∈ tickers
        · by_cases h3 : r.ticker = ""
          · simp [h1, h2, h3, List.mem_filter, pyDedup_mem]
          · simp [h1, h2, h3, List.mem_filter, pyDedup_mem]
        · simp [h1, h2, List.mem_filter, pyDedup_mem]
      · simp [h1]
  have hfields : ((delete_mentions_for_tickers db tag tickers).1.comment_analysis =
      db.comment_analysis) ∧
      ((delete_mentions_for_tickers db tag tickers).1.comments = db.comments) := by
    unfold delete_mentions_for_tickers
    by_cases he : ((pyDedup tickers).filter (fun t => decide (t ≠ ""))).isEmpty
    · rw [if_pos he]; exact ⟨rfl, rfl⟩
    · rw [if_neg he, foldl_delete tag _ db 0]
      exact ⟨rfl, rfl⟩
  refine ⟨hments, hfields.1, hfields.2, ?_, chunks900_sizes _⟩
  rw [hments]
  exact List.filter_sublist _

/-! ### C2 — candidate selection -/

theorem mem_fetch_candidates {db : DB} {tag : String} {lim : Nat} {retry : Bool}
    {subs : Option (List String)} {incl : Bool} {cid b : String}
    (h : (cid, b) ∈ fetch_candidates db tag lim retry subs incl) :
    ∃ c : CommentRow, c ∈ db.comments ∧ c.comment_id = cid ∧ c.body = b ∧
      candPred db tag retry incl c = true := by
  unfold fetch_candidates at h
  rcases List.mem_map.mp h with ⟨c, hc, hproj⟩
  have hc2 : c ∈ candidateRows db tag retry incl subs :=
    (List.take_sublist _ _).subset hc
  unfold candidateRows at hc2
  rw [List.mem_insertionSort] at hc2
  rcases List.mem_filter.mp hc2 with ⟨hmem, hpred⟩
  rcases Bool.and_eq_true_iff.mp hpred with ⟨hcand, _⟩
  rcases Prod.mk.injEq .. ▸ hproj with ⟨hcid, hbody⟩
  exact ⟨c, hmem, hcid, hbody, hcand⟩

/-- C2: candidate selection.  A record whose status for the tag is "ok" is
never selected in any mode; a record whose status is "error" is not selected
in default mode but is selected in retry mode (whenever the limit does not cut
it off); the selection is ordered most-recently-created first and limited to
the requested count. -/
theorem C2_candidate_selection (db : DB) (tag : String) :
    (∀ cid a, statusRow db tag cid = some a → a.status = "ok" →
      ∀ lim retry subs incl b,
        (cid, b) ∉ fetch_candidates db tag lim retry subs incl) ∧
    (∀ cid a, statusRow db tag cid = some a → a.status = "error" →
      ∀ lim subs incl b,
        (cid, b) ∉ fetch_candidates db tag lim false subs incl) ∧
    (∀ c ∈ db.comments, ∀ a, statusRow db tag c.comment_id = some a →
      a.status = "error" → ∀ lim, db.comments.length ≤ lim →
        (c.comment_id, c.body) ∈ fetch_candidates db tag lim true none false) ∧
    (∀ lim retry subs incl,
      (fetch_candidates db tag lim retry subs incl).length ≤ lim ∧
      ((candidateRows db tag retry incl subs).take lim).Pairwise createdGe) := by
  refine ⟨?_, ?_, ?_, ?_⟩
  · intro cid a hrow hok lim retry subs incl b hmem
    rcases mem_fetch_candidates hmem with ⟨c, _, hcid, _, hpred⟩
    unfold candPred at hpred
    rw [hcid, hrow] at hpred
    simp [hok] at hpred
  · intro cid a hrow herr lim subs incl b hmem
    rcases mem_fetch_candidates hmem with ⟨c, _, hcid, _, hpred⟩
    unfold candPred at hpred
    rw [hcid, hrow] at hpred
    simp [herr] at hpred
  · intro c hc a hrow herr lim hlim
    have hpred : candPred db tag true false c = true := by
      unfold candPred
      rw [hrow]
      simp [herr]
    have hfil : c ∈ db.comments.filter
        (fun c => candPred db tag true false c && subredditOk none c) :=
      List.mem_filter.mpr ⟨hc, by simp [hpred, subredditOk]⟩
    have hsort : c ∈ candidateRows db tag true false none := by
      unfold candidateRows
      rw [List.mem_insertionSort]
      exact hfil
    have hlen : (candidateRows db tag true false none).length ≤ lim := by
      unfold candidateRows
      rw [List.length_insertionSort]
      exact le_trans (List.length_filter_le _ _) hlim
    unfold fetch_candidates
    rw [List.take_of_length_le hlen]
    exact List.mem_map_of_mem _ hsort
  · intro lim retry subs incl
    constructor
    · unfold fetch_candidates
      rw [List.length_map, List.length_take]
      exact min_le_left _ _
    · exact List.Pairwise.sublist (List.take_sublist _ _)
        (List.sorted_insertionSort createdGe _)

/-- Small concrete database for the candidate-selection witness: one record
marked "ok", one marked "error", one never attempted. -/
def C2db : DB :=
  { comments := [⟨"a", "s", 1, "A"⟩, ⟨"b", "s", 2, "B"⟩, ⟨"c", "s", 3, "C"⟩],
    comment_analysis := [⟨"t", "a", "m", 0, "ok", none⟩,
                         ⟨"t", "b", "m", 0, "error", some "E"⟩],
    mentions := [] }

theorem C2_candidate_selection_witness :
    (("a", "A") ∉ fetch_candidates C2db "t" 10 true none false) ∧
    (("b", "B") ∉ fetch_candidates C2db "t" 10 false none false) ∧
    (("b", "B") ∈ fetch_candidates C2db "t" 10 true none false) ∧
    ((fetch_candidates C2db "t" 10 true none false).length ≤ 10 ∧
      ((candidateRows C2db "t" true false none).take 10).Pairwise createdGe) := by
  refine ⟨?_, ?_, ?_, ?_⟩
  · exact (C2_candidate_selection C2db "t").1 "a" ⟨"t", "a", "m", 0, "ok", none⟩
      (by decide) rfl 10 true none false "A"
  · exact (C2_candidate_selection C2db "t").2.1 "b"
      ⟨"t", "b", "m", 0, "error", some "E"⟩ (by decide) rfl 10 none false "B"
  · exact (C2_candidate_selection C2db "t").2.2.1 ⟨"b", "s", 2, "B"⟩
      (by decide) ⟨"t", "b", "m", 0, "error", some "E"⟩ (by decide) rfl 10
      (by decide)
  · exact (C2_candidate_selection C2db "t").2.2.2 10 true none false

/-! ## pipeline.py — error classifier -/

/-- Exception classes distinguished by the classifier helpers of pipeline.py
lines 56–72: the four retryable OpenAI classes, the two fatal-auth classes, and
anything else. -/
inductive ErrKind
  | rateLimit
  | apiTimeout
  | apiConnection
  | internalServer
  | authFailure
  | permissionDenied
  | other
deriving DecidableEq, Repr

/-- A raised exception: its class kind, its class name (`type(e).__name__`)
and its message (`str(e)`). -/
structure PyError where
  kind : ErrKind
  name : String
  msg : String
deriving DecidableEq, Repr

/-- Python `needle in hay` on strings: the needle occurs contiguously in the
haystack. -/
def strContains (hay needle : String) : Bool := decide (needle.data <:+: hay.data)

/-- Embedding of `pipeline._is_quota_exhausted` (lines 56–58): substring tests
on the lowercased message. -/
def _is_quota_exhausted (e : PyError) : Bool :=
  strContains (pyLower e.msg) "insufficient_quota" ||
    (strContains (pyLower e.msg) "quota" &&
      (strContains (pyLower e.msg) "exceed" ||
        strContains (pyLower e.msg) "exceeded"))

/-- Embedding of `pipeline._is_retryable` (lines 60–69). -/
def _is_retryable (e : PyError) : Bool :=
  decide (e.kind = ErrKind.rateLimit) || decide (e.kind = ErrKind.apiTimeout) ||
    decide (e.kind = ErrKind.apiConnection) ||
    decide (e.kind = ErrKind.internalServer)

/-- Embedding of `pipeline._is_fatal_auth` (lines 71–72). -/
def _is_fatal_auth (e : PyError) : Bool :=
  decide (e.kind = ErrKind.authFailure) ||
    decide (e.kind = ErrKind.permissionDenied)

inductive Classification
  | fatalAuth
  | quotaExhausted
  | transient
  | permanentItemError
deriving DecidableEq, Repr

/-- The per-failure decision of the except-chain of `pipeline.analyze`
(lines 338–372), in source order: fatal-auth propagates; a RateLimitError
whose message matches the quota patterns stops the run; a retryable error is
retried in place; anything else is a permanent per-item error. -/
def classify (e : PyError) : Classification :=
  if _is_fatal_auth e then .fatalAuth
  else if e.kind = ErrKind.rateLimit ∧ _is_quota_exhausted e then .quotaExhausted
  else if _is_retryable e then .transient
  else .permanentItemError

/-! ## pipeline.py — the pacer (rate limiter) -/

/-- State of the pacer of pipeline.py lines 265–275: the idealized monotonic
clock and the earliest instant the next call may start (`next_call_at`,
initialized to the current time at line 266).  Sleeping is modelled as exact:
after sleeping d seconds the clock advances by exactly d, and no time passes
between immediately-issued calls.  No deadline is configured. -/
structure PaceState where
  now : ℚ
  next_call_at : ℚ
deriving DecidableEq, Repr

/-- One `_pace()` call (pipeline.py lines 268–275): a non-positive interval
skips pacing; otherwise sleep until `next_call_at` if it is in the future and
reschedule `next_call_at` to one interval after the current time.  Returns the
time slept and the new state; the extraction call starts at the returned
state's `now`. -/
def pace (interval : ℚ) (st : PaceState) : ℚ × PaceState :=
  if interval ≤ 0 then (0, st)
  else if st.now < st.next_call_at then
    (st.next_call_at - st.now,
     { now := st.next_call_at, next_call_at := st.next_call_at + interval })
  else (0, { now := st.now, next_call_at := st.now + interval })

/-- Delays experienced by `n` extraction calls issued in immediate succession. -/
def paceDelays (interval : ℚ) : Nat → PaceState → List ℚ
  | 0, _ => []
  | n + 1, st => (pace interval st).1 :: paceDelays interval n (pace interval st).2

/-- Pacer state after `n` immediate calls; its `now` is the instant the n-th
call started. -/
def paceEnd (interval : ℚ) : Nat → PaceState → PaceState
  | 0, st => st
  | n + 1, st => paceEnd interval n (pace interval st).2

/-! ### C4 — the pacer is a fixed-interval limiter, not a sliding window -/

theorem pace_saturated (i : ℚ) (hi : 0 < i) :
    ∀ (n : Nat) (t : ℚ),
      paceDelays i n ⟨t, t + i⟩ = List.replicate n i ∧
      (paceEnd i n ⟨t, t + i⟩).now = t + n * i
  | 0, t => by simp [paceDelays, paceEnd]
  | n + 1, t => by
      have hstep : pace i ⟨t, t + i⟩ = (i, ⟨t + i, t + i + i⟩) := by
        unfold pace
        rw [if_neg (not_le.mpr hi), if_pos (show t < t + i by linarith)]
        rw [show t + i - t = i by ring]
      obtain ⟨ih1, ih2⟩ := pace_saturated i hi n (t + i)
      constructor
      · rw [paceDelays, hstep]
        simp only []
        rw [ih1, List.replicate_succ]
      · rw [paceEnd, hstep]
        simp only []
        rw [ih2]
        push_cast
        ring

/-- C4 (counterexample): at N = 2 calls per 60 seconds, two calls issued in
immediate succession from a fresh pacer are delayed by [0, 30]: the second of
the first N calls is blocked for 30 seconds, contradicting a sliding window in
which the first N calls in an empty window are never blocked. -/
theorem C4_pacer_counterexample :
    paceDelays ((60 : ℚ) / 2) 2 ⟨0, 0⟩ = [0, 30] ∧ ¬((30 : ℚ) = 0) := by
  constructor
  · have h1 : pace ((60 : ℚ) / 2) ⟨0, 0⟩ = (0, ⟨0, 30⟩) := by
      unfold pace
      rw [if_neg (show ¬((60 : ℚ) / 2 ≤ 0) by norm_num),
        if_neg (show ¬((0 : ℚ) < 0) from lt_irrefl 0)]
      norm_num
    have h2 : pace ((60 : ℚ) / 2) ⟨0, 30⟩ = (30, ⟨30, 60⟩) := by
      unfold pace
      rw [if_neg (show ¬((60 : ℚ) / 2 ≤ 0) by norm_num),
        if_pos (show (0 : ℚ) < 30 by norm_num)]
      norm_num
    rw [paceDelays, h1]
    simp only []
    rw [paceDelays, h2]
    simp only []
    rw [paceDelays]
  · norm_num

/-- C4 (amended): the pacer is a fixed-interval limiter.  Configured at N
calls per 60 seconds (N ≥ 1), in immediate succession the first call is not
delayed and every following call — the 2nd through (N+1)-th — is blocked for
exactly 60/N seconds, so consecutive call starts are 60/N apart and the
(N+1)-th call starts exactly 60 seconds after the first (when the first call's
slot has aged the full window).  No timestamp window is kept or evicted. -/
theorem C4_fixed_interval_pacing (N : Nat) (hN : 1 ≤ N) :
    paceDelays ((60 : ℚ) / N) (N + 1) ⟨0, 0⟩ =
      0 :: List.replicate N ((60 : ℚ) / N) ∧
    (paceEnd ((60 : ℚ) / N) (N + 1) ⟨0, 0⟩).now = 60 := by
  have hNQ : (0 : ℚ) < N := by
    have : (1 : ℚ) ≤ (N : ℚ) := by exact_mod_cast hN
    linarith
  have hi : (0 : ℚ) < 60 / N := by positivity
  have hfirst : pace ((60 : ℚ) / N) ⟨0, 0⟩ = (0, ⟨0, 0 + 60 / N⟩) := by
    unfold pace
    rw [if_neg (not_le.mpr hi), if_neg (lt_irrefl 0)]
  obtain ⟨h1, h2⟩ := pace_saturated (60 / N) hi N 0
  constructor
  · rw [paceDelays, hfirst]
    simp only []
    rw [h1]
  · rw [paceEnd, hfirst]
    simp only []
    rw [h2]
    rw [zero_add]
    field_simp

/-- C4 witness: the amended pacing law applied at N = 2. -/
theorem C4_fixed_interval_pacing_witness :
    paceDelays ((60 : ℚ) / 2) 3 ⟨0, 0⟩ = 0 :: List.replicate 2 ((60 : ℚ) / 2) ∧
    (paceEnd ((60 : ℚ) / 2) 3 ⟨0, 0⟩).now = 60 := by
  have h := C4_fixed_interval_pacing 2 (by decide)
  exact_mod_cast h

/-! ## pipeline.py — the analyze scheduler loop

The loop of `pipeline.analyze` (lines 277–389) is embedded as a deterministic
interpreter over scripted external events.  Monotonic time, keyboard polling
and the extraction service are external: each candidate's script supplies, for
the top-of-item checks and for every attempt, whether the cooperative abort
fired, whether the deadline had expired, and what the extraction call
returned.  The progress bar, `_pace` and the backoff sleeps have no persisted
effect and are not recorded.  `_cleanup_invalid_tickers` (pipeline.py lines
108–122) returns 0 immediately because `ticker.ENABLE_YFINANCE_VALIDATION` is
`False` (ticker.py line 7), so it is the identity on the database.

`ticker.ENABLE_KEYWORD_SHORTCUT` (ticker.py line 6, `False` by default) and
`ticker.has_finance_hint` are carried in the run configuration — spec §6 lists
the keyword-shortcut enable flag in the run configuration surface consumed by
the core; `hint` abstracts the compiled keyword regex.  The wall-clock stamp
used for rows (`int(time.time())`) is the configuration's `now`. -/

/-- Observable persistence events of one run, in program order. -/
inductive Ev
  | call
  | mentionsWrite (cid : String) (rows : List (String × String))
  | okWrite (cid : String)
  | errWrite (cid : String) (detail : String)
  | commit
deriving DecidableEq, Repr

/-- Script of one attempt iteration (pipeline.py lines 302–372): the abort
poll at line 303, the deadline check at line 305, and the outcome of the
extraction call. -/
structure Att where
  abortB : Bool
  timeoutB : Bool
  result : Except PyError (List (String × String))

/-- Script of one candidate: its (comment_id, body) pair as returned by the
candidate query, the abort poll at line 279, the deadline check at line 281,
and the scripts of its successive attempts. -/
structure Cand where
  cid : String
  body : String
  abortB : Bool
  timeoutB : Bool
  atts : List Att

/-- Embedding of `pipeline.AnalyzeOutcome` (lines 35–40). -/
structure AnalyzeOutcome where
  analyzed : Nat := 0
  errors : Nat := 0
  analyzed_model_calls : Nat := 0
  stopped_reason : Option String := none
deriving DecidableEq, Repr

/-- Run configuration consumed by the embed of `analyze`. -/
structure RunCfg where
  tag : String
  model : String
  now : Nat
  enableShortcut : Bool
  hint : String → Bool

/-- Connection-visible state of one run: the database, the trace of
persistence events, and the outcome being built. -/
structure RunState where
  db : DB
  trace : List Ev
  outcome : AnalyzeOutcome

/-- How the run ended: a graceful `return outcome` (`finished`, any stop
reason), the fatal-auth re-raise of line 341 (`raised`), or the modelling
artifact of an attempt script running out while the code would still be
retrying (`scriptEnded`). -/
inductive RunExit
  | finished
  | raised (e : PyError)
  | scriptEnded
deriving DecidableEq, Repr

/-- Result of processing one candidate: continue the for-loop, or leave it. -/
inductive ItemStep
  | toNext (st : RunState)
  | stop (st : RunState) (ex : RunExit)

/-- The retry loop for one candidate (pipeline.py lines 301–372).  Branches in
source order: abort poll (line 303, KeyboardInterrupt caught at 380–384:
commit, reason ctrl_c, return); deadline (lines 305–310: reason timeout,
commit, return); successful call (lines 313–329: call, save_mentions, mark ok,
commit on every 10th analyzed); fatal auth (339–341: commit, re-raise); quota
(343–355: mark error with detail, commit, reason quota, return); retryable
(357–361: backoff sleep, next attempt); otherwise permanent (363–372: mark
error with detail, count, commit, next candidate). -/
def attemptLoop (cfg : RunCfg) (cid : String) :
    List Att → RunState → ItemStep
  | [], st => .stop st .scriptEnded
  | a :: rest, st =>
      if a.abortB then
        .stop { st with
                trace := st.trace ++ [Ev.commit]
                outcome := { st.outcome with stopped_reason := some "ctrl_c" } }
          .finished
      else if a.timeoutB then
        .stop { st with
                trace := st.trace ++ [Ev.commit]
                outcome := { st.outcome with stopped_reason := some "timeout" } }
          .finished
      else
        match a.result with
        | .ok rows =>
            .toNext
              { db := mark_analyzed_ok
                  (save_mentions st.db cfg.tag cid cfg.model cfg.now rows)
                  cfg.tag cid cfg.model cfg.now
                trace := st.trace ++
                  [Ev.call, Ev.mentionsWrite cid rows, Ev.okWrite cid] ++
                  (if (st.outcome.analyzed + 1) % 10 = 0 then [Ev.commit]
                   else [])
                outcome := { st.outcome with
                  analyzed := st.outcome.analyzed + 1
                  analyzed_model_calls :=
                    st.outcome.analyzed_model_calls + 1 } }
        | .error e =>
            if _is_fatal_auth e then
              .stop { st with trace := st.trace ++ [Ev.commit] } (.raised e)
            else if e.kind = ErrKind.rateLimit ∧ _is_quota_exhausted e then
              .stop
                { db := mark_analyzed_error st.db cfg.tag cid cfg.model cfg.now
                    (e.name ++ ": " ++ e.msg)
                  trace := st.trace ++
                    [Ev.errWrite cid (e.name ++ ": " ++ e.msg), Ev.commit]
                  outcome := { st.outcome with
                    stopped_reason := some "quota" } }
                .finished
            else if _is_retryable e then
              attemptLoop cfg cid rest st
            else
              .toNext
                { db := mark_analyzed_error st.db cfg.tag cid cfg.model cfg.now
                    (e.name ++ ": " ++ e.msg)
                  trace := st.trace ++
                    [Ev.errWrite cid (e.name ++ ": " ++ e.msg), Ev.commit]
                  outcome := { st.outcome with
                    errors := st.outcome.errors + 1 } }

/-- The for-loop of `pipeline.analyze` (lines 277–389).  Branches in source
order: abort poll (line 279, caught at 380–384); deadline (281–286);
empty/whitespace-only body (288–291: progress only, nothing else); keyword
shortcut (293–299: mark ok without a call, commit on every 50th analyzed);
otherwise the attempt loop; after the last candidate, the final commit of
lines 376–378. -/
def analyzeLoop (cfg : RunCfg) : List Cand → RunState → RunState × RunExit
  | [], st => ({ st with trace := st.trace ++ [Ev.commit] }, .finished)
  | c :: rest, st =>
      if c.abortB then
        ({ st with
           trace := st.trace ++ [Ev.commit]
           outcome := { st.outcome with stopped_reason := some "ctrl_c" } },
         .finished)
      else if c.timeoutB then
        ({ st with
           trace := st.trace ++ [Ev.commit]
           outcome := { st.outcome with stopped_reason := some "timeout" } },
         .finished)
      else if pyStrip c.body = "" then analyzeLoop cfg rest st
      else if cfg.enableShortcut && !cfg.hint (pyStrip c.body) then
        analyzeLoop cfg rest
          { db := mark_analyzed_ok st.db cfg.tag c.cid cfg.model cfg.now
            trace := st.trace ++ [Ev.okWrite c.cid] ++
              (if (st.outcome.analyzed + 1) % 50 = 0 then [Ev.commit] else [])
            outcome := { st.outcome with
              analyzed := st.outcome.analyzed + 1 } }
      else
        match attemptLoop cfg c.cid c.atts st with
        | .toNext st' => analyzeLoop cfg rest st'
        | .stop st' ex => (st', ex)

/-- Embedding of `pipeline.analyze` on an initial database and candidate
scripts. -/
def analyze (cfg : RunCfg) (db : DB) (cands : List Cand) : RunState × RunExit :=
  analyzeLoop cfg cands ⟨db, [], {}⟩

/-! ### Trace checkers for the commit policy -/

/-- Scan the trace keeping a counter of ok-status writes since the last
commit; true when the counter never exceeds `bound`. -/
def gapRun (bound : Nat) : List Ev → Nat → Bool
  | [], _ => true
  | e :: tr, c =>
      match e with
      | .commit => gapRun bound tr 0
      | .okWrite _ => decide (c + 1 ≤ bound) && gapRun bound tr (c + 1)
      | _ => gapRun bound tr c

/-- The claim "persisted writes are committed at least every `bound`
successfully analyzed items": between any two consecutive commits of the
trace at most `bound` items reach an ok status. -/
def commitGapOk (bound : Nat) (tr : List Ev) : Bool := gapRun bound tr 0

/-- Number of ok-status writes since the last commit, starting from `c`. -/
def gapCount : List Ev → Nat → Nat
  | [], c => c
  | e :: tr, c =>
      match e with
      | .commit => gapCount tr 0
      | .okWrite _ => gapCount tr (c + 1)
      | _ => gapCount tr c

/-- Number of write events (status or mention writes) after the last commit,
starting from `c`. -/
def pendingWrites : List Ev → Nat → Nat
  | [], c => c
  | e :: tr, c =>
      match e with
      | .commit => pendingWrites tr 0
      | .call => pendingWrites tr c
      | _ => pendingWrites tr (c + 1)

theorem gapCount_append :
    ∀ (t1 t2 : List Ev) (c : Nat),
      gapCount (t1 ++ t2) c = gapCount t2 (gapCount t1 c)
  | [], t2, c => rfl
  | e :: t1, t2, c => by
      cases e <;> simp only [List.cons_append, gapCount] <;>
        exact gapCount_append t1 t2 _

theorem gapRun_append (b : Nat) :
    ∀ (t1 t2 : List Ev) (c : Nat),
      gapRun b (t1 ++ t2) c = (gapRun b t1 c && gapRun b t2 (gapCount t1 c))
  | [], t2, c => by simp [gapRun, gapCount]
  | e :: t1, t2, c => by
      cases e <;>
        simp only [List.cons_append, gapRun, gapCount, List.append_eq] <;>
        rw [gapRun_append b t1 t2 _] <;> simp [Bool.and_assoc]

theorem pendingWrites_append :
    ∀ (t1 t2 : List Ev) (c : Nat),
      pendingWrites (t1 ++ t2) c = pendingWrites t2 (pendingWrites t1 c)
  | [], t2, c => rfl
  | e :: t1, t2, c => by
      cases e <;> simp only [List.cons_append, pendingWrites] <;>
        exact pendingWrites_append t1 t2 _

theorem pendingWrites_after_commit (t : List Ev) (c : Nat) :
    pendingWrites (t ++ [Ev.commit]) c = 0 := by
  rw [pendingWrites_append]
  rfl

/-! ### Commit-policy invariant lemmas -/

theorem gapRun_commit_suffix {tr : List Ev} (h : gapRun 50 tr 0 = true) :
    gapRun 50 (tr ++ [Ev.commit]) 0 = true := by
  rw [gapRun_append]
  simp [h, gapRun]

theorem gapCount_commit_suffix (tr : List Ev) :
    gapCount (tr ++ [Ev.commit]) 0 = 0 := by
  rw [gapCount_append]
  rfl

theorem gapRun_errcommit_suffix {tr : List Ev} (cid d : String)
    (h : gapRun 50 tr 0 = true) :
    gapRun 50 (tr ++ [Ev.errWrite cid d, Ev.commit]) 0 = true := by
  rw [gapRun_append]
  simp [h, gapRun]

theorem gapCount_errcommit_suffix (tr : List Ev) (cid d : String) :
    gapCount (tr ++ [Ev.errWrite cid d, Ev.commit]) 0 = 0 := by
  rw [gapCount_append]
  rfl

theorem pending_errcommit (tr : List Ev) (cid d : String) :
    pendingWrites (tr ++ [Ev.errWrite cid d, Ev.commit]) 0 = 0 := by
  rw [pendingWrites_append]
  rfl

theorem gapRun_ok_suffix {tr : List Ev} (cid : String)
    (rows : List (String × String)) (q : Prop) [Decidable q]
    (hb : gapCount tr 0 ≤ 49) (h : gapRun 50 tr 0 = true) :
    gapRun 50 (tr ++ [Ev.call, Ev.mentionsWrite cid rows, Ev.okWrite cid] ++
      (if q then [Ev.commit] else [])) 0 = true := by
  rw [List.append_assoc, gapRun_append]
  refine Bool.and_eq_true_iff.mpr ⟨h, ?_⟩
  by_cases hq : q <;> simp [hq, gapRun] <;> omega

theorem gapCount_ok_suffix (tr : List Ev) (cid : String)
    (rows : List (String × String)) (q : Prop) [Decidable q] :
    gapCount (tr ++ [Ev.call, Ev.mentionsWrite cid rows, Ev.okWrite cid] ++
      (if q then [Ev.commit] else [])) 0 =
      if q then 0 else gapCount tr 0 + 1 := by
  rw [List.append_assoc, gapCount_append]
  by_cases hq : q <;> simp [hq, gapCount]

theorem gapRun_sc_suffix {tr : List Ev} (cid : String) (q : Prop) [Decidable q]
    (hb : gapCount tr 0 ≤ 49) (h : gapRun 50 tr 0 = true) :
    gapRun 50 (tr ++ [Ev.okWrite cid] ++ (if q then [Ev.commit] else [])) 0 =
      true := by
  rw [List.append_assoc, gapRun_append]
  refine Bool.and_eq_true_iff.mpr ⟨h, ?_⟩
  by_cases hq : q <;> simp [hq, gapRun] <;> omega

theorem gapCount_sc_suffix (tr : List Ev) (cid : String) (q : Prop)
    [Decidable q] :
    gapCount (tr ++ [Ev.okWrite cid] ++ (if q then [Ev.commit] else [])) 0 =
      if q then 0 else gapCount tr 0 + 1 := by
  rw [List.append_assoc, gapCount_append]
  by_cases hq : q <;> simp [hq, gapCount]

theorem attemptLoop_inv (cfg : RunCfg) (cid : String) :
    ∀ (atts : List Att) (st : RunState),
      gapRun 50 st.trace 0 = true →
      gapCount st.trace 0 ≤ st.outcome.analyzed % 50 →
      ((∀ st', attemptLoop cfg cid atts st = .toNext st' →
          gapRun 50 st'.trace 0 = true ∧
          gapCount st'.trace 0 ≤ st'.outcome.analyzed % 50) ∧
       (∀ st' ex, attemptLoop cfg cid atts st = .stop st' ex →
          gapRun 50 st'.trace 0 = true ∧
          gapCount st'.trace 0 ≤ st'.outcome.analyzed % 50 ∧
          (ex ≠ RunExit.scriptEnded → pendingWrites st'.trace 0 = 0)))
  | [], st => fun h1 h2 => by
      constructor
      · intro st' h
        simp [attemptLoop] at h
      · intro st' ex h
        rw [attemptLoop] at h
        injection h with ha hb
        subst ha
        subst hb
        exact ⟨h1, h2, fun hne => absurd rfl hne⟩
  | a :: rest, st => fun h1 h2 => by
      have hb49 : gapCount st.trace 0 ≤ 49 := le_trans h2 (by omega)
      rw [attemptLoop]
      by_cases hab : a.abortB
      · rw [if_pos hab]
        constructor
        · intro st' h
          simp at h
        · intro st' ex h
          injection h with ha hbx
          subst ha
          refine ⟨gapRun_commit_suffix h1, ?_, ?_⟩
          · rw [gapCount_commit_suffix]
            exact Nat.zero_le _
          · intro _
            exact pendingWrites_after_commit _ _
      · rw [if_neg hab]
        by_cases hto : a.timeoutB
        · rw [if_pos hto]
          constructor
          · intro st' h
            simp at h
          · intro st' ex h
            injection h with ha hbx
            subst ha
            refine ⟨gapRun_commit_suffix h1, ?_, ?_⟩
            · rw [gapCount_commit_suffix]
              exact Nat.zero_le _
            · intro _
              exact pendingWrites_after_commit _ _
        · rw [if_neg hto]
          cases hres : a.result with
          | ok rows =>
              dsimp only
              constructor
              · intro st' h
                injection h with ha
                subst ha
                constructor
                · exact gapRun_ok_suffix cid rows _ hb49 h1
                · rw [gapCount_ok_suffix]
                  by_cases hq : (st.outcome.analyzed + 1) % 10 = 0
                  · rw [if_pos hq]
                    exact Nat.zero_le _
                  · rw [if_neg hq]
                    show gapCount st.trace 0 + 1 ≤
                      (st.outcome.analyzed + 1) % 50
                    omega
              · intro st' ex h
                simp at h
          | error e =>
              dsimp only
              by_cases hfa : _is_fatal_auth e
              · rw [if_pos hfa]
                constructor
                · intro st' h
                  simp at h
                · intro st' ex h
                  injection h with ha hbx
                  subst ha
                  refine ⟨gapRun_commit_suffix h1, ?_, ?_⟩
                  · rw [gapCount_commit_suffix]
                    exact Nat.zero_le _
                  · intro _
                    exact pendingWrites_after_commit _ _
              · rw [if_neg hfa]
                by_cases hqe : e.kind = ErrKind.rateLimit ∧ _is_quota_exhausted e
                · rw [if_pos hqe]
                  constructor
                  · intro st' h
                    simp at h
                  · intro st' ex h
                    injection h with ha hbx
                    subst ha
                    refine ⟨gapRun_errcommit_suffix _ _ h1, ?_, ?_⟩
                    · rw [gapCount_errcommit_suffix]
                      exact Nat.zero_le _
                    · intro _
                      exact pending_errcommit _ _ _
                · rw [if_neg hqe]
                  by_cases hre : _is_retryable e
                  · rw [if_pos hre]
                    exact attemptLoop_inv cfg cid rest st h1 h2
                  · rw [if_neg hre]
                    constructor
                    · intro st' h
                      injection h with ha
                      subst ha
                      refine ⟨gapRun_errcommit_suffix _ _ h1, ?_⟩
                      rw [gapCount_errcommit_suffix]
                      exact Nat.zero_le _
                    · intro st' ex h
                      simp at h

theorem analyzeLoop_inv (cfg : RunCfg) :
    ∀ (cands : List Cand) (st : RunState),
      gapRun 50 st.trace 0 = true →
      gapCount st.trace 0 ≤ st.outcome.analyzed % 50 →
      gapRun 50 (analyzeLoop cfg cands st).1.trace 0 = true ∧
      ((analyzeLoop cfg cands st).2 ≠ RunExit.scriptEnded →
        pendingWrites (analyzeLoop cfg cands st).1.trace 0 = 0)
  | [], st => fun h1 _ => by
      rw [analyzeLoop]
      exact ⟨gapRun_commit_suffix h1,
        fun _ => pendingWrites_after_commit _ _⟩
  | c :: rest, st => fun h1 h2 => by
      have hb49 : gapCount st.trace 0 ≤ 49 := le_trans h2 (by omega)
      rw [analyzeLoop]
      by_cases hab : c.abortB
      · rw [if_pos hab]
        exact ⟨gapRun_commit_suffix h1,
          fun _ => pendingWrites_after_commit _ _⟩
      · rw [if_neg hab]
        by_cases hto : c.timeoutB
        · rw [if_pos hto]
          exact ⟨gapRun_commit_suffix h1,
            fun _ => pendingWrites_after_commit _ _⟩
        · rw [if_neg hto]
          by_cases hbl : pyStrip c.body = ""
          · rw [if_pos hbl]
            exact analyzeLoop_inv cfg rest st h1 h2
          · rw [if_neg hbl]
            by_cases hsc : cfg.enableShortcut && !cfg.hint (pyStrip c.body)
            · rw [if_pos hsc]
              refine analyzeLoop_inv cfg rest _ ?_ ?_
              · exact gapRun_sc_suffix _ _ hb49 h1
              · show gapCount (st.trace ++ [Ev.okWrite c.cid] ++
                  (if (st.outcome.analyzed + 1) % 50 = 0 then [Ev.commit]
                   else [])) 0 ≤ (st.outcome.analyzed + 1) % 50
                rw [gapCount_sc_suffix]
                by_cases hq : (st.outcome.analyzed + 1) % 50 = 0
                · rw [if_pos hq]
                  exact Nat.zero_le _
                · rw [if_neg hq]
                  omega
            · rw [if_neg hsc]
              cases hA : attemptLoop cfg c.cid c.atts st with
              | toNext st' =>
                  obtain ⟨hg, hc⟩ :=
                    (attemptLoop_inv cfg c.cid c.atts st h1 h2).1 st' hA
                  exact analyzeLoop_inv cfg rest st' hg hc
              | stop st' ex =>
                  obtain ⟨hg, _, hp⟩ :=
                    (attemptLoop_inv cfg c.cid c.atts st h1 h2).2 st' ex hA
                  exact ⟨hg, hp⟩

/-! ### C5 — commit policy -/

/-- Run configuration with the keyword shortcut enabled and a hint predicate
that never fires, so every candidate takes the shortcut path. -/
def C5cfg : RunCfg := ⟨"t", "m", 0, true, fun _ => false⟩

/-- C5 (counterexample): with the keyword shortcut enabled, a run of 11
shortcut-handled candidates performs 11 ok-status writes with no intervening
commit (the shortcut path only commits on every 50th analyzed item), so the
claimed "commit at least every 10 successfully analyzed items, counting
shortcut-handled items" is false. -/
theorem C5_commit_counterexample :
    commitGapOk 10
      (analyze C5cfg ⟨[], [], []⟩
        (List.replicate 11 ⟨"c", "x", false, false, []⟩)).1.trace = false := by
  rfl

/-- C5 (amended): between any two consecutive commits of a run at most 50
items reach ok status — the model-call path commits when the shared analyzed
counter is a multiple of 10, the keyword-shortcut path only when it is a
multiple of 50 — and on every stop/return path of the run (normal completion,
timeout, cancellation, quota stop, fatal-auth propagation) all pending writes
are committed. -/
theorem C5_commit_policy (cfg : RunCfg) (db : DB) (cands : List Cand) :
    commitGapOk 50 (analyze cfg db cands).1.trace = true ∧
    ((analyze cfg db cands).2 ≠ RunExit.scriptEnded →
      pendingWrites (analyze cfg db cands).1.trace 0 = 0) := by
  have h := analyzeLoop_inv cfg cands ⟨db, [], {}⟩ rfl (Nat.zero_le _)
  exact ⟨h.1, h.2⟩

/-- C5 witness: the amended commit policy evaluated on the counterexample run. -/
theorem C5_commit_policy_witness :
    commitGapOk 50
      (analyze C5cfg ⟨[], [], []⟩
        (List.replicate 11 ⟨"c", "x", false, false, []⟩)).1.trace = true ∧
    pendingWrites
      (analyze C5cfg ⟨[], [], []⟩
        (List.replicate 11 ⟨"c", "x", false, false, []⟩)).1.trace 0 = 0 :=
  ⟨(C5_commit_policy C5cfg ⟨[], [], []⟩ _).1,
   (C5_commit_policy C5cfg ⟨[], [], []⟩ _).2 (by decide)⟩

/-! ### C1 — empty/whitespace-only bodies get no status row -/

/-- Database holding a single record whose body is whitespace-only, with no
status rows for any tag. -/
def C1db : DB := ⟨[⟨"c1", "s", 5, "   "⟩], [], []⟩

/-- Run configuration matching the repository defaults: keyword shortcut off. -/
def C1cfg : RunCfg := ⟨"t", "m", 0, false, fun _ => false⟩

/-- C1 (the code evaluated at the failing input): default-mode selection
returns the whitespace-only record; the analyze run over it makes no
extraction call, increments no counter — but also writes no AnalysisStatus
row at all (its only trace event is the final commit and the database is
unchanged), so a subsequent default-mode selection for the same tag returns
the record again, contradicting the claim that an "ok" row is recorded and
the record is no longer selected. -/
theorem C1_blank_body_eval :
    fetch_candidates C1db "t" 10 false none false = [("c1", "   ")] ∧
    (analyze C1cfg C1db [⟨"c1", "   ", false, false, []⟩]).2 =
      RunExit.finished ∧
    (analyze C1cfg C1db [⟨"c1", "   ", false, false, []⟩]).1.trace =
      [Ev.commit] ∧
    (analyze C1cfg C1db [⟨"c1", "   ", false, false, []⟩]).1.db = C1db ∧
    (analyze C1cfg C1db [⟨"c1", "   ", false, false, []⟩]).1.outcome =
      { analyzed := 0, errors := 0, analyzed_model_calls := 0,
        stopped_reason := none } ∧
    statusRow (analyze C1cfg C1db [⟨"c1", "   ", false, false, []⟩]).1.db "t"
      "c1" = none ∧
    fetch_candidates (analyze C1cfg C1db [⟨"c1", "   ", false, false, []⟩]).1.db
      "t" 10 false none false = [("c1", "   ")] := by
  refine ⟨?_, ?_, ?_, ?_, ?_, ?_, ?_⟩ <;> rfl

/-! ### C3 — classifier ordering and the quota stop -/

theorem statusRow_mark_error (db : DB) (tag cid model : String) (now : Nat)
    (err : String) :
    statusRow (mark_analyzed_error db tag cid model now err) tag cid =
      some ⟨tag, cid, model, now, "error", some (err.take 2000)⟩ := by
  unfold statusRow mark_analyzed_error
  rw [List.find?_append]
  have h1 : (db.comment_analysis.filter
      (fun r => !analysisKeyMatch tag cid r)).find?
      (analysisKeyMatch tag cid) = none := by
    rw [List.find?_eq_none]
    intro x hx
    have hx2 := (List.mem_filter.mp hx).2
    simp only [Bool.not_eq_true'] at hx2
    simp [hx2]
  rw [h1, Option.none_or]
  rw [List.find?_cons_of_pos _ (by simp [analysisKeyMatch])]

theorem attemptLoop_quota_step (cfg : RunCfg) (cid : String) (e : PyError)
    (rest : List Att) (st : RunState)
    (hk : e.kind = ErrKind.rateLimit) (hq : _is_quota_exhausted e = true) :
    attemptLoop cfg cid (⟨false, false, .error e⟩ :: rest) st =
      .stop
        { db := mark_analyzed_error st.db cfg.tag cid cfg.model cfg.now
            (e.name ++ ": " ++ e.msg)
          trace := st.trace ++
            [Ev.errWrite cid (e.name ++ ": " ++ e.msg), Ev.commit]
          outcome := { st.outcome with stopped_reason := some "quota" } }
        .finished := by
  have hfa : ¬ _is_fatal_auth e = true := by
    simp [_is_fatal_auth, hk]
  rw [attemptLoop]
  dsimp only
  rw [if_neg hfa,
    if_pos (show e.kind = ErrKind.rateLimit ∧ _is_quota_exhausted e = true
      from ⟨hk, hq⟩)]
  rfl

theorem analyzeLoop_single_attempt (cfg : RunCfg) (cid body : String)
    (atts : List Att) (rest : List Cand) (st : RunState)
    (hbody : ¬ pyStrip body = "") (hsc : cfg.enableShortcut = false) :
    analyzeLoop cfg (⟨cid, body, false, false, atts⟩ :: rest) st =
      (match attemptLoop cfg cid atts st with
       | .toNext st' => analyzeLoop cfg rest st'
       | .stop st' ex => (st', ex)) := by
  rw [analyzeLoop]
  dsimp only
  rw [if_neg (by simp), if_neg (by simp), if_neg hbody,
    if_neg (by simp [hsc])]

/-- Run configuration for the quota scenario: shortcut off, stamp 7. -/
def C3cfg : RunCfg := ⟨"t", "m", 7, false, fun _ => false⟩

/-- Attempt script whose extraction call raises the given error. -/
def C3att (e : PyError) : Att := ⟨false, false, .error e⟩

/-- C3: the failure taxonomy is evaluated in source order — fatal-auth first,
then quota (a RateLimitError whose message matches a quota pattern), then
retryable, then permanent, first match wins.  In particular an error of the
rate-limit kind whose message also matches a quota pattern classifies as
QuotaExhausted, not Transient, and a run whose current item's call raises it
marks that item "error" with the failure detail and returns with the quota
stop reason. -/
theorem C3_classifier_order (e : PyError) :
    (_is_fatal_auth e = true → classify e = Classification.fatalAuth) ∧
    (_is_fatal_auth e = false →
      (e.kind = ErrKind.rateLimit ∧ _is_quota_exhausted e = true) →
      classify e = Classification.quotaExhausted) ∧
    (_is_fatal_auth e = false →
      ¬(e.kind = ErrKind.rateLimit ∧ _is_quota_exhausted e = true) →
      _is_retryable e = true → classify e = Classification.transient) ∧
    (_is_fatal_auth e = false →
      ¬(e.kind = ErrKind.rateLimit ∧ _is_quota_exhausted e = true) →
      _is_retryable e = false → classify e = Classification.permanentItemError) ∧
    (e.kind = ErrKind.rateLimit → _is_quota_exhausted e = true →
      classify e = Classification.quotaExhausted ∧
      classify e ≠ Classification.transient ∧
      ∀ (db : DB) (rest : List Att),
        (analyze C3cfg db [⟨"c1", "x", false, false, C3att e :: rest⟩]).2 =
          RunExit.finished ∧
        (analyze C3cfg db
          [⟨"c1", "x", false, false, C3att e :: rest⟩]).1.outcome.stopped_reason
          = some "quota" ∧
        statusRow
          (analyze C3cfg db [⟨"c1", "x", false, false, C3att e :: rest⟩]).1.db
          "t" "c1" =
          some ⟨"t", "c1", "m", 7, "error",
            some ((e.name ++ ": " ++ e.msg).take 2000)⟩) := by
  refine ⟨?_, ?_, ?_, ?_, ?_⟩
  · intro h
    unfold classify
    rw [if_pos h]
  · intro h1 h2
    unfold classify
    rw [if_neg (by simp [h1]), if_pos h2]
  · intro h1 h2 h3
    unfold classify
    rw [if_neg (by simp [h1]), if_neg h2, if_pos h3]
  · intro h1 h2 h3
    unfold classify
    rw [if_neg (by simp [h1]), if_neg h2, if_neg (by simp [h3])]
  · intro hk hq
    have hfa : ¬ _is_fatal_auth e = true := by
      simp [_is_fatal_auth, hk]
    have hcls : classify e = Classification.quotaExhausted := by
      unfold classify
      rw [if_neg hfa, if_pos ⟨hk, hq⟩]
    refine ⟨hcls, by rw [hcls]; intro h; exact absurd h (by simp), ?_⟩
    intro db rest
    have hrun : analyze C3cfg db [⟨"c1", "x", false, false, C3att e :: rest⟩] =
        (({ db := mark_analyzed_error db "t" "c1" "m" 7 (e.name ++ ": " ++ e.msg),
            trace := [Ev.errWrite "c1" (e.name ++ ": " ++ e.msg), Ev.commit],
            outcome := { analyzed := 0, errors := 0, analyzed_model_calls := 0,
                         stopped_reason := some "quota" } } : RunState),
         RunExit.finished) := by
      unfold analyze
      rw [analyzeLoop_single_attempt C3cfg "c1" "x" (C3att e :: rest) []
        ⟨db, [], {}⟩ (by decide) rfl]
      unfold C3att
      rw [attemptLoop_quota_step C3cfg "c1" e rest ⟨db, [], {}⟩ hk hq]
      rfl
    refine ⟨by rw [hrun], by rw [hrun], ?_⟩
    rw [hrun]
    exact statusRow_mark_error db "t" "c1" "m" 7 _

/-- Sample errors, one per classification bucket; the quota one carries the
rate-limit kind and a message matching the quota pattern. -/
def C3e1 : PyError := ⟨ErrKind.authFailure, "AuthenticationError", "bad key"⟩

def C3e2 : PyError :=
  ⟨ErrKind.rateLimit, "RateLimitError", "You exceeded your current quota"⟩

def C3e3 : PyError := ⟨ErrKind.apiTimeout, "APITimeoutError", "timed out"⟩

def C3e4 : PyError := ⟨ErrKind.other, "ValueError", "boom"⟩

/-- C3 witness: the classifier-ordering theorem applied at one concrete error
per bucket, and the quota run at the both-matching rate-limit error. -/
theorem C3_classifier_order_witness :
    classify C3e1 = Classification.fatalAuth ∧
    classify C3e2 = Classification.quotaExhausted ∧
    classify C3e3 = Classification.transient ∧
    classify C3e4 = Classification.permanentItemError ∧
    (analyze C3cfg ⟨[], [], []⟩
      [⟨"c1", "x", false, false, [C3att C3e2]⟩]).1.outcome.stopped_reason =
      some "quota" :=
  ⟨(C3_classifier_order C3e1).1 (by decide),
   (C3_classifier_order C3e2).2.1 (by decide) (by decide),
   (C3_classifier_order C3e3).2.2.1 (by decide) (by decide) (by decide),
   (C3_classifier_order C3e4).2.2.2.1 (by decide) (by decide) (by decide),
   (((C3_classifier_order C3e2).2.2.2.2 rfl (by decide)).2.2 ⟨[], [], []⟩
     []).2.1⟩

end RedditMiner
